import Mathlib

/-!
# Verification of the US-Laws citation-graph core

Shallow embedding of the citation-graph subsystem of the `us-laws`
repository:

* `scripts/processing/build_citation_graph.py` — identifier normalization,
  regex-based citation extraction, and SQLite edge storage;
* `app/citations.py` — the query engine (related-section lookups, stats,
  BFS path search);
* `app/routers/citations.py` — the HTTP endpoints with their FastAPI
  query-parameter validation.

Python strings are modelled as `List Char` in the text-processing layer and
as `String` for stored identifiers; the SQLite `citations` table is a
`List Citation` whose order models SQLite row order; sets are `Finset`.
-/

/-! ## Character helpers

`re.sub`/`re.match` character classes used by the source patterns.
The patterns in `PATTERNS` are compiled with `re.IGNORECASE`; the pattern
in `normalize_identifier` is compiled without flags (case sensitive).
-/

/-- ASCII lowercasing, modelling Python case-insensitive matching on the
characters that actually occur in the patterns. -/
def asciiLower (c : Char) : Char :=
  if 'A' ≤ c ∧ c ≤ 'Z' then Char.ofNat (c.toNat + 32) else c

/-- Class `[a-z0-9]` of the (flag-free) regex in `normalize_identifier`. -/
def isSubChar (c : Char) : Bool :=
  ('a' ≤ c && c ≤ 'z') || ('0' ≤ c && c ≤ '9')

/-- Python `\d`. -/
def isDigitChar (c : Char) : Bool := '0' ≤ c && c ≤ '9'

/-- Python `[a-z]` under `re.IGNORECASE` (the matcher lowercases first). -/
def isLowerAlpha (c : Char) : Bool := 'a' ≤ c && c ≤ 'z'

/-- Python `[a-z0-9]` under `re.IGNORECASE` (the matcher lowercases first). -/
def isLowerAlnum (c : Char) : Bool := isLowerAlpha c || isDigitChar c

/-- Python `\s` (ASCII whitespace as in `str.strip` and regex `\s`). -/
def isPySpace (c : Char) : Bool :=
  c = ' ' || c = '\t' || c = '\n' || c = '\r' || c = '\x0b' || c = '\x0c'

/-! ## IdentifierNormalizer (`normalize_identifier`) -/

lemma dropWhile_len_le (p : Char → Bool) (l : List Char) :
    (l.dropWhile p).length ≤ l.length := by
  induction l with
  | nil => simp
  | cons c rest ih =>
    by_cases hc : p c = true
    · rw [List.dropWhile_cons, if_pos hc]
      exact Nat.le_succ_of_le ih
    · rw [List.dropWhile_cons, if_neg hc]

/-- Models `re.sub(r"\([a-z0-9]+\)", "", section)`: delete every leftmost,
non-overlapping occurrence of a parenthesized nonempty `[a-z0-9]` run.
Because `[a-z0-9]+` is greedy and cannot match a closing parenthesis, the
regex match at an opening parenthesis is exactly: the maximal `[a-z0-9]`
run, nonempty, immediately followed by a closing parenthesis. -/
def removeSubs : List Char → List Char
  | [] => []
  | c :: rest =>
    if c = '(' then
      if hm : (rest.dropWhile isSubChar).head? = some ')' ∧
          rest.takeWhile isSubChar ≠ [] then
        removeSubs (rest.dropWhile isSubChar).tail
      else '(' :: removeSubs rest
    else c :: removeSubs rest
termination_by l => l.length
decreasing_by
  · simp only [List.length_cons]
    have h1 : (rest.dropWhile isSubChar).length ≤ rest.length :=
      dropWhile_len_le isSubChar rest
    have h2 : rest.dropWhile isSubChar ≠ [] := by
      intro hnil
      rw [hnil] at hm
      exact Option.noConfusion hm.1
    have h3 : (rest.dropWhile isSubChar).tail.length =
        (rest.dropWhile isSubChar).length - 1 := List.length_tail _
    omega
  · simp only [List.length_cons]
    omega
  · simp only [List.length_cons]
    omega

/-- Python `str.strip()`: drop ASCII whitespace from both ends. -/
def pyStrip (s : List Char) : List Char :=
  ((s.dropWhile isPySpace).reverse.dropWhile isPySpace).reverse

/-- Models `normalize_identifier(title, section)` from
`scripts/processing/build_citation_graph.py`: strip parenthesized
subsection suffixes from `section`, trim whitespace, and format the
canonical identifier string `/us/usc/t` + title + `/s` + base. -/
def normalize_identifier (title sect : List Char) : String :=
  String.mk ("/us/usc/t".data ++ title ++ "/s".data ++ pyStrip (removeSubs sect))

/-! ### Lemmas about `removeSubs` -/

lemma takeWhile_append_of_dropWhile_nil {p : Char → Bool} {l₁ : List Char}
    (l₂ : List Char) (h : l₁.dropWhile p = []) :
    (l₁ ++ l₂).takeWhile p = l₁ ++ l₂.takeWhile p := by
  induction l₁ with
  | nil => simp
  | cons c l ih =>
    by_cases hc : p c = true
    · rw [List.dropWhile_cons, if_pos hc] at h
      rw [List.cons_append, List.takeWhile_cons, if_pos hc, ih h, List.cons_append]
    · rw [List.dropWhile_cons, if_neg hc] at h
      exact absurd h (by simp)

lemma dropWhile_append_of_dropWhile_nil {p : Char → Bool} {l₁ : List Char}
    (l₂ : List Char) (h : l₁.dropWhile p = []) :
    (l₁ ++ l₂).dropWhile p = l₂.dropWhile p := by
  induction l₁ with
  | nil => simp
  | cons c l ih =>
    by_cases hc : p c = true
    · rw [List.dropWhile_cons, if_pos hc] at h
      rw [List.cons_append, List.dropWhile_cons, if_pos hc, ih h]
    · rw [List.dropWhile_cons, if_neg hc] at h
      exact absurd h (by simp)

lemma takeWhile_append_of_dropWhile_cons {p : Char → Bool} {l₁ : List Char}
    {d : Char} {ds : List Char} (l₂ : List Char) (h : l₁.dropWhile p = d :: ds) :
    (l₁ ++ l₂).takeWhile p = l₁.takeWhile p := by
  induction l₁ with
  | nil => exact absurd h (by simp)
  | cons c l ih =>
    by_cases hc : p c = true
    · rw [List.dropWhile_cons, if_pos hc] at h
      rw [List.cons_append, List.takeWhile_cons, if_pos hc, ih h,
        List.takeWhile_cons, if_pos hc]
    · rw [List.cons_append, List.takeWhile_cons, if_neg hc,
        List.takeWhile_cons, if_neg hc]

lemma dropWhile_append_of_dropWhile_cons {p : Char → Bool} {l₁ : List Char}
    {d : Char} {ds : List Char} (l₂ : List Char) (h : l₁.dropWhile p = d :: ds) :
    (l₁ ++ l₂).dropWhile p = d :: (ds ++ l₂) := by
  induction l₁ with
  | nil => exact absurd h (by simp)
  | cons c l ih =>
    by_cases hc : p c = true
    · rw [List.dropWhile_cons, if_pos hc] at h
      rw [List.cons_append, List.dropWhile_cons, if_pos hc, ih h]
    · rw [List.dropWhile_cons, if_neg hc] at h
      obtain ⟨rfl, rfl⟩ := List.cons.inj h
      rw [List.cons_append, List.dropWhile_cons, if_neg hc]

lemma removeSubs_nil : removeSubs [] = [] := by
  rw [removeSubs]

lemma removeSubs_cons_ne (c : Char) (rest : List Char) (hc : c ≠ '(') :
    removeSubs (c :: rest) = c :: removeSubs rest := by
  rw [removeSubs, if_neg hc]

lemma removeSubs_cons_paren_hit (rest tail : List Char)
    (h : rest.dropWhile isSubChar = ')' :: tail)
    (hrun : rest.takeWhile isSubChar ≠ []) :
    removeSubs ('(' :: rest) = removeSubs tail := by
  rw [removeSubs, if_pos rfl, dif_pos ⟨by rw [h]; rfl, hrun⟩, h]
  rfl

lemma removeSubs_cons_paren_miss (rest : List Char)
    (h : ¬((rest.dropWhile isSubChar).head? = some ')' ∧
        rest.takeWhile isSubChar ≠ [])) :
    removeSubs ('(' :: rest) = '(' :: removeSubs rest := by
  rw [removeSubs, if_pos rfl, dif_neg h]

/-- Key algebraic fact about the subsection-stripping substitution: when the
second block is empty or starts with an opening parenthesis, no match spans
the boundary, so the substitution distributes over the concatenation. -/
lemma removeSubs_append (t : List Char) (ht : t = [] ∨ t.head? = some '(') :
    ∀ s : List Char, removeSubs (s ++ t) = removeSubs s ++ removeSubs t := by
  have htake : t.takeWhile isSubChar = [] := by
    rcases ht with rfl | hh
    · rfl
    · cases t with
      | nil => exact Option.noConfusion hh
      | cons x u =>
        have hx : x = '(' := by simpa using hh
        subst hx
        rw [List.takeWhile_cons, if_neg (by decide)]
  have hdrop : t.dropWhile isSubChar = t := by
    rcases ht with rfl | hh
    · rfl
    · cases t with
      | nil => exact Option.noConfusion hh
      | cons x u =>
        have hx : x = '(' := by simpa using hh
        subst hx
        rw [List.dropWhile_cons, if_neg (by decide)]
  have hhead : t.head? ≠ some ')' := by
    rcases ht with rfl | hh
    · simp
    · rw [hh]
      intro hcon
      exact absurd (Option.some.inj hcon) (by decide)
  suffices key : ∀ n : Nat, ∀ s : List Char, s.length ≤ n →
      removeSubs (s ++ t) = removeSubs s ++ removeSubs t by
    intro s
    exact key s.length s le_rfl
  intro n
  induction n with
  | zero =>
    intro s hs
    have hnil : s = [] := List.length_eq_zero.mp (Nat.le_zero.mp hs)
    subst hnil
    rw [List.nil_append, removeSubs_nil, List.nil_append]
  | succ n ih =>
    intro s hs
    cases s with
    | nil => rw [List.nil_append, removeSubs_nil, List.nil_append]
    | cons c s' =>
      simp only [List.length_cons, Nat.succ_le_succ_iff] at hs
      by_cases hc : c = '('
      · subst hc
        cases hd : s'.dropWhile isSubChar with
        | nil =>
          have h2 : (s' ++ t).dropWhile isSubChar = t := by
            rw [dropWhile_append_of_dropWhile_nil t hd, hdrop]
          have hmiss1 : ¬(((s' ++ t).dropWhile isSubChar).head? = some ')' ∧
              (s' ++ t).takeWhile isSubChar ≠ []) := by
            rw [h2]
            rintro ⟨hcon, -⟩
            exact hhead hcon
          have hmiss2 : ¬((s'.dropWhile isSubChar).head? = some ')' ∧
              s'.takeWhile isSubChar ≠ []) := by
            rw [hd]
            rintro ⟨hcon, -⟩
            exact Option.noConfusion hcon
          rw [List.cons_append, removeSubs_cons_paren_miss _ hmiss1,
            removeSubs_cons_paren_miss _ hmiss2, List.cons_append]
          exact congrArg _ (ih s' hs)
        | cons d ds =>
          have h2 : (s' ++ t).dropWhile isSubChar = d :: (ds ++ t) :=
            dropWhile_append_of_dropWhile_cons t hd
          have h1 : (s' ++ t).takeWhile isSubChar = s'.takeWhile isSubChar :=
            takeWhile_append_of_dropWhile_cons t hd
          by_cases hhit : d = ')' ∧ s'.takeWhile isSubChar ≠ []
          · obtain ⟨rfl, hrun⟩ := hhit
            have hds : ds.length ≤ n := by
              have hlen : (s'.dropWhile isSubChar).length ≤ s'.length :=
                dropWhile_len_le isSubChar s'
              rw [hd] at hlen
              simp only [List.length_cons] at hlen
              omega
            rw [List.cons_append,
              removeSubs_cons_paren_hit _ (ds ++ t) h2 (by rw [h1]; exact hrun),
              removeSubs_cons_paren_hit _ ds hd hrun]
            exact ih ds hds
          · have hmiss1 : ¬(((s' ++ t).dropWhile isSubChar).head? = some ')' ∧
                (s' ++ t).takeWhile isSubChar ≠ []) := by
              rw [h2, h1]
              rintro ⟨hcon, hrun⟩
              exact hhit ⟨Option.some.inj hcon, hrun⟩
            have hmiss2 : ¬((s'.dropWhile isSubChar).head? = some ')' ∧
                s'.takeWhile isSubChar ≠ []) := by
              rw [hd]
              rintro ⟨hcon, hrun⟩
              exact hhit ⟨Option.some.inj hcon, hrun⟩
            rw [List.cons_append, removeSubs_cons_paren_miss _ hmiss1,
              removeSubs_cons_paren_miss _ hmiss2, List.cons_append]
            exact congrArg _ (ih s' hs)
      · rw [List.cons_append, removeSubs_cons_ne c _ hc,
          removeSubs_cons_ne c _ hc, List.cons_append]
        exact congrArg _ (ih s' hs)

lemma removeSubs_suffix_eq_nil : removeSubs "(a)(2)".data = [] := by
  rw [show "(a)(2)".data = '(' :: ['a', ')', '(', '2', ')'] from rfl,
    removeSubs_cons_paren_hit _ ['(', '2', ')'] (by decide) (by decide),
    show (['(', '2', ')'] : List Char) = '(' :: ['2', ')'] from rfl,
    removeSubs_cons_paren_hit _ [] (by decide) (by decide),
    removeSubs_nil]

/-- C5: for every title `T` and every non-empty section string `S`,
`normalize_identifier T (S ++ "(a)(2)") = normalize_identifier T S` —
the normalizer strips every parenthesized subsection suffix, trims
whitespace, and formats the result as `/us/usc/t` T `/s` S-stripped. -/
theorem normalize_identifier_strips_subsection_suffix
    (T S : List Char) (hS : S ≠ []) :
    normalize_identifier T (S ++ "(a)(2)".data) = normalize_identifier T S := by
  unfold normalize_identifier
  rw [removeSubs_append "(a)(2)".data (Or.inr rfl) S, removeSubs_suffix_eq_nil,
    List.append_nil]

/-- Witness for C5 at the concrete input T = "17", S = "101". -/
theorem normalize_identifier_strips_subsection_suffix_witness :
    "101".data ≠ ([] : List Char) ∧
      normalize_identifier "17".data ("101".data ++ "(a)(2)".data) =
        normalize_identifier "17".data "101".data :=
  ⟨by decide, normalize_identifier_strips_subsection_suffix "17".data "101".data
    (by decide)⟩

/-! ## CitationExtractor: regex engine

A small backtracking regex engine sufficient for the five patterns in
`PATTERNS` (`build_citation_graph.py`). Matching is greedy with ordered
alternation, like Python `re`. All five patterns are compiled with
`re.IGNORECASE`: the engine compares characters after ASCII lowercasing
(classes are given in lowercased form). The engine is fueled so that it is
structurally recursive; the fuel passed by `matchAt` is far larger than any
run on the inputs considered here can consume. -/

inductive RE where
  | eps : RE
  | lit : Char → RE
  | cls : (Char → Bool) → RE
  | seq : RE → RE → RE
  | alt : RE → RE → RE
  | star : RE → RE
  | group : Nat → RE → RE

/-- Regex `x+`. -/
def RE.plus (a : RE) : RE := .seq a (.star a)

/-- Regex `x?` (greedy: try `x` first). -/
def RE.opt (a : RE) : RE := .alt a .eps

/-- A literal word, one `lit` per character. -/
def RE.strLit : List Char → RE
  | [] => .eps
  | c :: cs => .seq (.lit c) (RE.strLit cs)

/-- Group captures: capture-group index paired with captured text; the most
recent write to a group shadows older ones (Python keeps the last). -/
abbrev Caps := List (Nat × List Char)

/-- CPS backtracking matcher. `k` is the continuation receiving the rest of
the input and the captures; alternatives are tried in order; `star` is
greedy and each iteration of a star must consume input (the patterns below
have no nullable star bodies, so this matches Python `re`). -/
def reMatch : Nat → RE → List Char → Caps →
    (List Char → Caps → Option (List Char × Caps)) →
    Option (List Char × Caps)
  | 0, _, _, _, _ => none
  | fuel + 1, re, s, caps, k =>
    match re with
    | .eps => k s caps
    | .lit c =>
      match s with
      | [] => none
      | x :: rest => if asciiLower x = asciiLower c then k rest caps else none
    | .cls p =>
      match s with
      | [] => none
      | x :: rest => if p (asciiLower x) then k rest caps else none
    | .seq a b =>
      reMatch fuel a s caps (fun s' caps' => reMatch fuel b s' caps' k)
    | .alt a b =>
      match reMatch fuel a s caps k with
      | some r => some r
      | none => reMatch fuel b s caps k
    | .star a =>
      match reMatch fuel a s caps (fun s' caps' =>
          if s'.length < s.length then reMatch fuel (.star a) s' caps' k
          else none) with
      | some r => some r
      | none => k s caps
    | .group i a =>
      reMatch fuel a s caps (fun s' caps' =>
        k s' ((i, s.take (s.length - s'.length)) :: caps'))

/-- Anchored match at the start of `s` (Python tries each position; see
`finditer`). Returns the unconsumed rest and the captures. -/
def matchAt (re : RE) (s : List Char) : Option (List Char × Caps) :=
  reMatch (s.length * 64 + 4096) re s [] (fun rest caps => some (rest, caps))

/-- Models `re.finditer`: scan left to right, yield each leftmost non-overlapping
match (matched text, captures), resume after the match (one character
further on an empty match, as Python does). -/
def finditerAux : Nat → RE → List Char → List (List Char × Caps)
  | 0, _, _ => []
  | fuel + 1, re, s =>
    match matchAt re s with
    | some (rest, caps) =>
      let m := s.take (s.length - rest.length)
      if m.isEmpty then
        (m, caps) :: (match s with
          | [] => []
          | _ :: s' => finditerAux fuel re s')
      else (m, caps) :: finditerAux fuel re rest
    | none =>
      match s with
      | [] => []
      | _ :: s' => finditerAux fuel re s'

def finditer (re : RE) (s : List Char) : List (List Char × Caps) :=
  finditerAux (s.length + 1) re s

/-- Models `match.groups()` for a pattern with `n` capture groups, 0-indexed list
of the texts of groups `1 .. n`. -/
def capsToGroups (n : Nat) (caps : Caps) : List (List Char) :=
  (List.range n).map (fun i => (((caps.find? (fun q => q.1 = i + 1))).map
    (fun q => q.2)).getD [])

/-! ## The five `PATTERNS` of `build_citation_graph.py` -/

/-- Regex `\s+`. -/
def ws1 : RE := .plus (.cls isPySpace)

/-- Regex `\s*`. -/
def ws0 : RE := .star (.cls isPySpace)

/-- Regex `\d+[a-z]?(?:\([a-z0-9]+\))*` — a section number. -/
def secNumRE : RE :=
  .seq (.plus (.cls isDigitChar))
    (.seq (.opt (.cls isLowerAlpha))
      (.star (.seq (.lit '(') (.seq (.plus (.cls isLowerAlnum)) (.lit ')')))))

/-- Pattern 1: `[Ss]ection\s+(\d+[a-z]?(?:\([a-z0-9]+\))*)\s+of\s+[Tt]itle\s+(\d+)`. -/
def pattern1 : RE :=
  .seq (RE.strLit "section".data)
    (.seq ws1 (.seq (.group 1 secNumRE)
      (.seq ws1 (.seq (RE.strLit "of".data)
        (.seq ws1 (.seq (RE.strLit "title".data)
          (.seq ws1 (.group 2 (.plus (.cls isDigitChar))))))))))

/-- Pattern 2: `(\d+)\s+U\.?S\.?C\.?\s*ยง?\s*(\d+[a-z]?(?:\([a-z0-9]+\))*)`.
The source file literally contains the characters U+0E22 and U+0E07 (a
mis-encoded section sign), so the regex requires a literal `ย` followed by
an optional `ง` between the whitespace runs; it is embedded as written. -/
def pattern2 : RE :=
  .seq (.group 1 (.plus (.cls isDigitChar)))
    (.seq ws1 (.seq (.lit 'U') (.seq (.opt (.lit '.')) (.seq (.lit 'S')
      (.seq (.opt (.lit '.')) (.seq (.lit 'C') (.seq (.opt (.lit '.'))
        (.seq ws0 (.seq (.lit 'ย') (.seq (.opt (.lit 'ง'))
          (.seq ws0 (.group 2 secNumRE))))))))))))

/-- Pattern 3: `[Tt]itle\s+(\d+),?\s+[Ss]ection\s+(\d+[a-z]?(?:\([a-z0-9]+\))*)`. -/
def pattern3 : RE :=
  .seq (RE.strLit "title".data)
    (.seq ws1 (.seq (.group 1 (.plus (.cls isDigitChar)))
      (.seq (.opt (.lit ',')) (.seq ws1 (.seq (RE.strLit "section".data)
        (.seq ws1 (.group 2 secNumRE)))))))

/-- Pattern 4:
`[Ss]ections?\s+(\d+[a-z]?)\s+(?:through|to|and)\s+\d+[a-z]?\s+of\s+this\s+title`
— only the first section number of the range is captured. -/
def pattern4 : RE :=
  .seq (RE.strLit "section".data)
    (.seq (.opt (.lit 's')) (.seq ws1
      (.seq (.group 1 (.seq (.plus (.cls isDigitChar)) (.opt (.cls isLowerAlpha))))
        (.seq ws1 (.seq (.alt (RE.strLit "through".data)
            (.alt (RE.strLit "to".data) (RE.strLit "and".data)))
          (.seq ws1 (.seq (.seq (.plus (.cls isDigitChar)) (.opt (.cls isLowerAlpha)))
            (.seq ws1 (.seq (RE.strLit "of".data)
              (.seq ws1 (.seq (RE.strLit "this".data)
                (.seq ws1 (RE.strLit "title".data)))))))))))))

/-- Pattern 5: `[Ss]ection\s+(\d+[a-z]?(?:\([a-z0-9]+\))*)\s+of\s+this\s+title`. -/
def pattern5 : RE :=
  .seq (RE.strLit "section".data)
    (.seq ws1 (.seq (.group 1 secNumRE)
      (.seq ws1 (.seq (RE.strLit "of".data)
        (.seq ws1 (.seq (RE.strLit "this".data)
          (.seq ws1 (RE.strLit "title".data))))))))

/-- The `PATTERNS` list, each entry with its number of capture groups. -/
def PATTERNS : List (RE × Nat) :=
  [(pattern1, 2), (pattern2, 2), (pattern3, 2), (pattern4, 1), (pattern5, 1)]

/-! ## `parse_citations` -/

/-- Does `hay` start with `needle`? -/
def startsWithSub : List Char → List Char → Bool
  | _, [] => true
  | [], _ :: _ => false
  | c :: cs, d :: ds => c = d && startsWithSub cs ds

/-- Python substring test: `needle in hay`. -/
def containsSub (needle : List Char) : List Char → Bool
  | [] => needle.isEmpty
  | c :: rest => startsWithSub (c :: rest) needle || containsSub needle rest

def lowerAll (s : List Char) : List Char := s.map asciiLower

def asciiUpper (c : Char) : Char :=
  if 'a' ≤ c ∧ c ≤ 'z' then Char.ofNat (c.toNat - 32) else c

def upperAll (s : List Char) : List Char := s.map asciiUpper

/-- Models `parse_citations(text, source_title)` from `build_citation_graph.py`:
run the five patterns independently over `text` and dispatch on the matched
text to decide which group is the title and which the section; matches whose
resolved title or section is empty are discarded. Returns
`(target_title, target_section, citation_text)` tuples in source order. -/
def parse_citations (text : List Char) (source_title : List Char) :
    List (List Char × List Char × List Char) :=
  (PATTERNS.map (fun pr =>
    (finditer pr.1 text).filterMap (fun m =>
      let citation_text := m.1
      let groups := capsToGroups pr.2 m.2
      let lower := lowerAll citation_text
      let upper := upperAll citation_text
      if containsSub "of title".data lower ∨
          containsSub "of this title".data lower then
        let sect := groups.getD 0 []
        let title := if groups.length > 1 ∧ groups.getD 1 [] ≠ [] then
          groups.getD 1 [] else source_title
        if title ≠ [] ∧ sect ≠ [] then some (title, sect, citation_text)
        else none
      else if containsSub "U.S.C".data upper ∨ containsSub "USC".data upper then
        let title := groups.getD 0 []
        let sect := groups.getD 1 []
        if title ≠ [] ∧ sect ≠ [] then some (title, sect, citation_text)
        else none
      else if containsSub "title".data lower then
        let title := groups.getD 0 []
        let sect := groups.getD 1 []
        if title ≠ [] ∧ sect ≠ [] then some (title, sect, citation_text)
        else none
      else none))).flatten

/-- C6: extracting from the text
`"sections 102 through 105 of this title"` with source title 10 yields
exactly one citation tuple, with target title `10` and target section `102`
(only the first number of the range is captured), and no other pattern
matches the phrase. -/
theorem parse_citations_range_start_only :
    parse_citations "sections 102 through 105 of this title".data "10".data =
      [("10".data, "102".data,
        "sections 102 through 105 of this title".data)] := by
  decide

/-! ## Data model: `Citation` and the ingestion pipeline -/

/-- The `Citation` dataclass of `build_citation_graph.py`; also the row type
of the SQLite `citations` table (the autoincrement `id` column carries no
information and is omitted; row order in a `List Citation` models SQLite
row order). -/
structure Citation where
  source_title : String
  source_section : String
  source_identifier : String
  target_title : String
  target_section : String
  target_identifier : String
  citation_text : String
deriving DecidableEq, Repr

/-- One unit of the corpus as `parse_xml_for_citations` sees it after the
external XML parsing (spec §6: the corpus iterator yielding, per section,
its identifier, title number and plain text is an external collaborator):
the section's `identifier` attribute, the section number extracted from it,
the source title from the folder name, and the section's flattened text. -/
structure SectionDoc where
  identifier : String
  sec_number : String
  title : List Char
  text : List Char

/-- The citation-assembly loop of `parse_xml_for_citations`
(`build_citation_graph.py` lines 160–190): for every extracted tuple,
normalize the target and drop self-citations (normalized target identifier
equal to the section's own identifier) before building the `Citation`. -/
def citationsOfSection (d : SectionDoc) : List Citation :=
  (parse_citations d.text d.title).filterMap (fun tup =>
    let target_identifier := normalize_identifier tup.1 tup.2.1
    if target_identifier = d.identifier then none
    else some
      { source_title := String.mk d.title
        source_section := d.sec_number
        source_identifier := d.identifier
        target_title := String.mk tup.1
        target_section := String.mk tup.2.1
        target_identifier := target_identifier
        citation_text := String.mk tup.2.2 })

/-- Models `parse_xml_for_citations` over a whole corpus: concatenation of the
per-section edge lists (the `build_citation_graph` main loop). -/
def corpusCitations (docs : List SectionDoc) : List Citation :=
  (docs.map citationsOfSection).flatten

/-! ## GraphStore: `create_database` -/

/-- The `UNIQUE(source_identifier, target_identifier, citation_text)`
key of the `citations` table. -/
def rowKey (c : Citation) : String × String × String :=
  (c.source_identifier, c.target_identifier, c.citation_text)

/-- One `INSERT OR IGNORE` statement: a row whose key triple is already
present is silently ignored, otherwise the row is appended. -/
def insertOrIgnore (store : List Citation) (c : Citation) : List Citation :=
  if store.any (fun r => rowKey r = rowKey c) then store else store ++ [c]

/-- The insert loop of `create_database` (`build_citation_graph.py`
lines 236–259): bulk `INSERT OR IGNORE` of every extracted citation into
the table (`CREATE TABLE IF NOT EXISTS` keeps whatever is already there). -/
def create_database (store : List Citation) (citations : List Citation) :
    List Citation :=
  citations.foldl insertOrIgnore store

lemma mem_insertOrIgnore {store : List Citation} {c r : Citation}
    (h : r ∈ insertOrIgnore store c) : r ∈ store ∨ r = c := by
  unfold insertOrIgnore at h
  by_cases hk : store.any (fun q => rowKey q = rowKey c)
  · rw [if_pos hk] at h
    exact Or.inl h
  · rw [if_neg hk] at h
    rcases List.mem_append.mp h with h1 | h1
    · exact Or.inl h1
    · exact Or.inr (List.mem_singleton.mp h1)

lemma mem_create_database {cs : List Citation} :
    ∀ {init : List Citation} {r : Citation},
      r ∈ create_database init cs → r ∈ init ∨ r ∈ cs := by
  induction cs with
  | nil =>
    intro init r h
    exact Or.inl h
  | cons c cs ih =>
    intro init r h
    unfold create_database at h
    rw [List.foldl_cons] at h
    rcases ih h with h1 | h1
    · rcases mem_insertOrIgnore h1 with h2 | h2
      · exact Or.inl h2
      · exact Or.inr (by rw [h2]; exact List.mem_cons_self c cs)
    · exact Or.inr (List.mem_cons_of_mem c h1)

lemma citationsOfSection_no_self {d : SectionDoc} {c : Citation}
    (h : c ∈ citationsOfSection d) :
    c.source_identifier ≠ c.target_identifier := by
  unfold citationsOfSection at h
  obtain ⟨tup, htup, hsome⟩ := List.mem_filterMap.mp h
  by_cases heq : normalize_identifier tup.1 tup.2.1 = d.identifier
  · rw [if_pos heq] at hsome
    exact Option.noConfusion hsome
  · rw [if_neg heq] at hsome
    obtain rfl := Option.some.inj hsome
    exact fun hcon => heq (by exact hcon.symm)

/-- C2: after ingesting any corpus into a fresh store, no edge has
`source_identifier = target_identifier`: every extracted citation whose
normalized target identifier equals the source section's own identifier is
dropped before persistence. -/
theorem store_has_no_self_citations (docs : List SectionDoc) :
    ∀ c ∈ create_database [] (corpusCitations docs),
      c.source_identifier ≠ c.target_identifier := by
  intro c hc
  rcases mem_create_database hc with h | h
  · exact absurd h (List.not_mem_nil c)
  · unfold corpusCitations at h
    obtain ⟨l, hl, hcl⟩ := List.mem_flatten.mp h
    obtain ⟨d, hd, rfl⟩ := List.mem_map.mp hl
    exact citationsOfSection_no_self hcl

lemma removeSubs_eq_self_of_no_paren : ∀ s : List Char, '(' ∉ s → removeSubs s = s := by
  intro s
  induction s with
  | nil => intro h; exact removeSubs_nil
  | cons c rest ih =>
    intro h
    rw [removeSubs_cons_ne c rest (fun hc => h (hc ▸ List.mem_cons_self c rest)),
      ih (fun hm => h (List.mem_cons_of_mem c hm))]

lemma normalize_eval_102 :
    normalize_identifier ['1', '0'] ['1', '0', '2'] = "/us/usc/t10/s102" := by
  unfold normalize_identifier
  rw [removeSubs_eq_self_of_no_paren _ (by decide)]
  decide

lemma c2_store_eval : create_database [] (corpusCitations
    [⟨"/us/usc/t10/s101", "101", "10".data, "section 102 of this title".data⟩]) =
    [⟨"10", "101", "/us/usc/t10/s101", "10", "102", "/us/usc/t10/s102",
      "section 102 of this title"⟩] := by
  have hp : parse_citations "section 102 of this title".data "10".data =
      [("10".data, "102".data, "section 102 of this title".data)] := by decide
  unfold corpusCitations citationsOfSection
  simp only [List.map_cons, List.map_nil, List.flatten]
  rw [hp]
  simp only [List.filterMap_cons, List.filterMap_nil, normalize_eval_102]
  norm_num [create_database, insertOrIgnore]
  decide

/-- Witness for C2 at a one-section corpus whose text cites another section
of the same title. -/
theorem store_has_no_self_citations_witness :
    (⟨"10", "101", "/us/usc/t10/s101", "10", "102", "/us/usc/t10/s102",
        "section 102 of this title"⟩ : Citation) ∈
      create_database [] (corpusCitations
        [⟨"/us/usc/t10/s101", "101", "10".data,
          "section 102 of this title".data⟩]) ∧
    (⟨"10", "101", "/us/usc/t10/s101", "10", "102", "/us/usc/t10/s102",
        "section 102 of this title"⟩ : Citation).source_identifier ≠
      (⟨"10", "101", "/us/usc/t10/s101", "10", "102", "/us/usc/t10/s102",
        "section 102 of this title"⟩ : Citation).target_identifier := by
  have hm : (⟨"10", "101", "/us/usc/t10/s101", "10", "102", "/us/usc/t10/s102",
      "section 102 of this title"⟩ : Citation) ∈
      create_database [] (corpusCitations
        [⟨"/us/usc/t10/s101", "101", "10".data,
          "section 102 of this title".data⟩]) := by
    rw [c2_store_eval]
    exact List.mem_singleton.mpr rfl
  exact ⟨hm, store_has_no_self_citations _ _ hm⟩

lemma insertOrIgnore_of_present {store : List Citation} {c : Citation}
    (h : store.any (fun r => rowKey r = rowKey c) = true) :
    insertOrIgnore store c = store := by
  unfold insertOrIgnore
  rw [if_pos h]

lemma any_key_insertOrIgnore_mono {store : List Citation} {c : Citation}
    (d : Citation) (h : store.any (fun r => rowKey r = rowKey c) = true) :
    (insertOrIgnore store d).any (fun r => rowKey r = rowKey c) = true := by
  unfold insertOrIgnore
  by_cases hk : store.any (fun r => rowKey r = rowKey d) = true
  · rw [if_pos hk]
    exact h
  · rw [if_neg hk, List.any_append, h, Bool.true_or]

lemma any_key_create_database_mono {cs : List Citation} : ∀ {store : List Citation}
    {c : Citation}, store.any (fun r => rowKey r = rowKey c) = true →
    (create_database store cs).any (fun r => rowKey r = rowKey c) = true := by
  induction cs with
  | nil => intro store c h; exact h
  | cons d ds ih =>
    intro store c h
    unfold create_database
    rw [List.foldl_cons]
    exact ih (any_key_insertOrIgnore_mono d h)

lemma any_key_after_insertOrIgnore (store : List Citation) (c : Citation) :
    (insertOrIgnore store c).any (fun r => rowKey r = rowKey c) = true := by
  unfold insertOrIgnore
  by_cases hk : store.any (fun r => rowKey r = rowKey c) = true
  · rw [if_pos hk]
    exact hk
  · rw [if_neg hk, List.any_append]
    simp

lemma all_keys_present {cs : List Citation} : ∀ {store : List Citation},
    ∀ c ∈ cs, (create_database store cs).any (fun r => rowKey r = rowKey c) = true := by
  induction cs with
  | nil =>
    intro store c hc
    cases hc
  | cons d ds ih =>
    intro store c hc
    unfold create_database
    rw [List.foldl_cons]
    rcases List.mem_cons.mp hc with rfl | hmem
    · exact any_key_create_database_mono (any_key_after_insertOrIgnore store c)
    · exact ih c hmem

lemma create_database_noop {cs : List Citation} : ∀ {store : List Citation},
    (∀ c ∈ cs, store.any (fun r => rowKey r = rowKey c) = true) →
    create_database store cs = store := by
  induction cs with
  | nil => intro store _; rfl
  | cons d ds ih =>
    intro store h
    unfold create_database
    rw [List.foldl_cons, insertOrIgnore_of_present (h d (List.mem_cons_self d ds))]
    exact ih (fun c hc => h c (List.mem_cons_of_mem d hc))

/-- C3: edge insertion is idempotent. An edge whose
`(source_identifier, target_identifier, citation_text)` triple is already
stored is silently ignored (`INSERT OR IGNORE` against the `UNIQUE`
constraint, a total function — never an error), so running the ingestion
a second time over identical input leaves the store, and in particular the
total edge count, unchanged. -/
theorem create_database_idempotent (init cs : List Citation) :
    create_database (create_database init cs) cs = create_database init cs ∧
    (create_database (create_database init cs) cs).length =
      (create_database init cs).length := by
  have h : create_database (create_database init cs) cs =
      create_database init cs :=
    create_database_noop (fun c hc => all_keys_present c hc)
  exact ⟨h, by rw [h]⟩

/-! ## GraphQueryEngine (`app/citations.py`)

`get_db_connection()` returns `None` when the database file does not exist;
the whole query layer is therefore parameterized by an
`Option (List Citation)`: `none` models a missing store, `some rows` models
an existing store with the given table contents. -/

/-- Models `SELECT DISTINCT`: keep the first occurrence of each row (the list
order models SQLite's row order). -/
def sqlDistinct {α : Type} [DecidableEq α] : List α → List α
  | [] => []
  | x :: rest =>
    if x ∈ rest then
      x :: (sqlDistinct rest).filter (fun y => ¬(y = x))
    else x :: sqlDistinct rest

/-- The `RelatedSection` dataclass of `app/citations.py`. -/
structure RelatedSection where
  identifier : String
  title : String
  sec : String
  relationship : String
  citation_text : String
deriving DecidableEq, Repr

/-- Models `get_sections_that_cite(identifier, limit)`: rows with
`target_identifier = identifier`, `SELECT DISTINCT` over the four selected
columns, `LIMIT limit`; `[]` when the store does not exist. -/
def get_sections_that_cite (db : Option (List Citation)) (identifier : String)
    (limit : Nat) : List RelatedSection :=
  match db with
  | none => []
  | some rows =>
    ((sqlDistinct ((rows.filter (fun c => c.target_identifier = identifier)).map
      (fun c => (c.source_identifier, c.source_title, c.source_section,
        c.citation_text)))).take limit).map
      (fun q => ⟨q.1, q.2.1, q.2.2.1, "cited_by", q.2.2.2⟩)

/-- Models `get_sections_cited_by(identifier, limit)`: rows with
`source_identifier = identifier`, `SELECT DISTINCT`, `LIMIT limit`; `[]`
when the store does not exist. -/
def get_sections_cited_by (db : Option (List Citation)) (identifier : String)
    (limit : Nat) : List RelatedSection :=
  match db with
  | none => []
  | some rows =>
    ((sqlDistinct ((rows.filter (fun c => c.source_identifier = identifier)).map
      (fun c => (c.target_identifier, c.target_title, c.target_section,
        c.citation_text)))).take limit).map
      (fun q => ⟨q.1, q.2.1, q.2.2.1, "cites", q.2.2.2⟩)

/-- The value `get_related_sections` assembles (the dict with `cited_by`,
`cites` and the two totals). -/
structure RelatedResult where
  cited_by : List RelatedSection
  cites : List RelatedSection
  total_cited_by : Nat
  total_cites : Nat
deriving DecidableEq, Repr

/-- Models `get_related_sections(identifier, limit)`: both directions; degrades to
all-empty lists when the store does not exist (each lookup returns `[]`). -/
def get_related_sections (db : Option (List Citation)) (identifier : String)
    (limit : Nat) : RelatedResult :=
  let cited_by := get_sections_that_cite db identifier limit
  let cites := get_sections_cited_by db identifier limit
  ⟨cited_by, cites, cited_by.length, cites.length⟩

/-- One row of the `most_cited` / `most_citing` rankings of
`get_citation_stats`. -/
structure StatEntry where
  identifier : String
  title : String
  sec : String
  count : Nat
deriving DecidableEq, Repr

def insertDescByCount (e : StatEntry) : List StatEntry → List StatEntry
  | [] => [e]
  | x :: rest =>
    if x.count < e.count then e :: x :: rest else x :: insertDescByCount e rest

/-- Models `ORDER BY cnt DESC` (stable; ties keep their group order — SQLite leaves
tie order unspecified, the list order is this model's row order). -/
def sortDescByCount : List StatEntry → List StatEntry
  | [] => []
  | x :: rest => insertDescByCount x (sortDescByCount rest)

/-- Models `GROUP BY key` with `COUNT(*)`: one entry per distinct key in
first-appearance order; the bare title/section columns are taken from the
group's first row (SQLite leaves the choice unspecified). -/
def groupByKey (rows : List Citation) (keyf titlef secf : Citation → String) :
    List StatEntry :=
  (sqlDistinct (rows.map keyf)).map (fun k =>
    let grp := rows.filter (fun c => keyf c = k)
    ⟨k, ((grp.head?).map titlef).getD "", ((grp.head?).map secf).getD "",
      grp.length⟩)

/-- Return value of `get_citation_stats`: either the distinguished error
dict or the statistics dict. -/
inductive StatsResult where
  | error : String → StatsResult
  | stats : Nat → Nat → Nat → List StatEntry → List StatEntry → StatsResult
deriving DecidableEq, Repr

/-- Models `get_citation_stats()` from `app/citations.py`: the error dict
(`"Citation database not found"`) when the store does not exist, otherwise
total count, distinct-source count, distinct-target count, and the two
top-10 rankings. -/
def get_citation_stats (db : Option (List Citation)) : StatsResult :=
  match db with
  | none => .error "Citation database not found"
  | some rows =>
    .stats rows.length
      (sqlDistinct (rows.map (fun c => c.source_identifier))).length
      (sqlDistinct (rows.map (fun c => c.target_identifier))).length
      ((sortDescByCount (groupByKey rows (fun c => c.target_identifier)
        (fun c => c.target_title) (fun c => c.target_section))).take 10)
      ((sortDescByCount (groupByKey rows (fun c => c.source_identifier)
        (fun c => c.source_title) (fun c => c.source_section))).take 10)

/-! ## `search_citation_path`: bounded BFS over full paths -/

/-- Models `SELECT DISTINCT target_identifier FROM citations WHERE
source_identifier = current`. -/
def neighborsOf (rows : List Citation) (current : String) : List String :=
  sqlDistinct ((rows.filter (fun c => c.source_identifier = current)).map
    (fun c => c.target_identifier))

/-- All target identifiers of the table; every node ever enqueued by the
BFS other than the source lies in this finite set. -/
def targetUniv (rows : List Citation) : Finset String :=
  (rows.map (fun c => c.target_identifier)).toFinset

/-- The inner `for row in cursor.fetchall()` loop of
`search_citation_path`: a neighbor equal to the target completes a path
(and is not enqueued); an unvisited neighbor within the depth bound is
marked visited and its extended path enqueued; anything else is dropped.
Returns the updated `(visited, queue, found_paths)`. -/
def expandRow (target : String) (max_depth : Nat) (path : List String) :
    List String → Finset String → List (List String) → List (List String) →
    Finset String × List (List String) × List (List String)
  | [], visited, queue, found => (visited, queue, found)
  | n :: ns, visited, queue, found =>
    if n = target then
      expandRow target max_depth path ns visited queue (found ++ [path ++ [n]])
    else if n ∉ visited ∧ path.length < max_depth then
      expandRow target max_depth path ns (insert n visited)
        (queue ++ [path ++ [n]]) found
    else
      expandRow target max_depth path ns visited queue found

lemma mem_sqlDistinct {α : Type} [DecidableEq α] :
    ∀ {l : List α} {x : α}, x ∈ sqlDistinct l → x ∈ l := by
  intro l
  induction l with
  | nil => intro x h; exact h
  | cons y rest ih =>
    intro x h
    simp only [sqlDistinct] at h
    by_cases hy : y ∈ rest
    · rw [if_pos hy] at h
      rcases List.mem_cons.mp h with rfl | h2
      · exact List.mem_cons_self x rest
      · exact List.mem_cons_of_mem _ (ih (List.mem_of_mem_filter h2))
    · rw [if_neg hy] at h
      rcases List.mem_cons.mp h with rfl | h2
      · exact List.mem_cons_self x rest
      · exact List.mem_cons_of_mem _ (ih h2)

lemma mem_sqlDistinct_of_mem {α : Type} [DecidableEq α] :
    ∀ {l : List α} {x : α}, x ∈ l → x ∈ sqlDistinct l := by
  intro l
  induction l with
  | nil => intro x h; exact h
  | cons y rest ih =>
    intro x h
    simp only [sqlDistinct]
    by_cases hy : y ∈ rest
    · rw [if_pos hy]
      rcases List.mem_cons.mp h with rfl | h2
      · exact List.mem_cons_self x _
      · by_cases hxy : x = y
        · subst hxy
          exact List.mem_cons_self x _
        · refine List.mem_cons_of_mem _ (List.mem_filter.mpr ⟨ih h2, ?_⟩)
          simp [hxy]
    · rw [if_neg hy]
      rcases List.mem_cons.mp h with rfl | h2
      · exact List.mem_cons_self x _
      · exact List.mem_cons_of_mem _ (ih h2)

lemma sqlDistinct_nodup {α : Type} [DecidableEq α] :
    ∀ l : List α, (sqlDistinct l).Nodup := by
  intro l
  induction l with
  | nil => exact List.nodup_nil
  | cons y rest ih =>
    simp only [sqlDistinct]
    by_cases hy : y ∈ rest
    · rw [if_pos hy]
      refine List.nodup_cons.mpr ⟨?_, ih.filter _⟩
      intro hcon
      have := (List.mem_filter.mp hcon).2
      simp at this
    · rw [if_neg hy]
      refine List.nodup_cons.mpr ⟨fun hcon => hy (mem_sqlDistinct hcon), ih⟩

lemma neighborsOf_subset_targetUniv (rows : List Citation) (current : String) :
    ∀ n ∈ neighborsOf rows current, n ∈ targetUniv rows := by
  intro n hn
  unfold neighborsOf at hn
  unfold targetUniv
  rw [List.mem_toFinset]
  obtain ⟨c, hc, rfl⟩ := List.mem_map.mp (mem_sqlDistinct hn)
  exact List.mem_map.mpr ⟨c, List.mem_of_mem_filter hc, rfl⟩

/-- Each step of `expandRow` either leaves the measure
`2·|univ \ visited| + |queue|` unchanged or decreases it: an enqueue (+1 on
the queue) is always paired with a freshly visited universe node (−2). -/
lemma expandRow_measure (target : String) (max_depth : Nat) (path : List String)
    (univ : Finset String) :
    ∀ (ns : List String) (visited : Finset String) (queue found : List (List String)),
      (∀ n ∈ ns, n ∈ univ) →
      2 * (univ \ (expandRow target max_depth path ns visited queue found).1).card +
        (expandRow target max_depth path ns visited queue found).2.1.length ≤
      2 * (univ \ visited).card + queue.length := by
  intro ns
  induction ns with
  | nil =>
    intro visited queue found _
    simp [expandRow]
  | cons n ns ih =>
    intro visited queue found h
    by_cases h1 : n = target
    · simp only [expandRow, if_pos h1]
      exact ih visited queue _ (fun m hm => h m (List.mem_cons_of_mem n hm))
    · by_cases h2 : n ∉ visited ∧ path.length < max_depth
      · simp only [expandRow, if_neg h1, if_pos h2]
        have hrec := ih (insert n visited) (queue ++ [path ++ [n]]) found
          (fun m hm => h m (List.mem_cons_of_mem n hm))
        have hmem : n ∈ univ \ visited :=
          Finset.mem_sdiff.mpr ⟨h n (List.mem_cons_self n ns), h2.1⟩
        have hcard : (univ \ insert n visited).card = (univ \ visited).card - 1 := by
          rw [Finset.sdiff_insert]
          exact Finset.card_erase_of_mem hmem
        have hpos : 0 < (univ \ visited).card := Finset.card_pos.mpr ⟨n, hmem⟩
        have hlen : (queue ++ [path ++ [n]]).length = queue.length + 1 := by
          simp
        omega
      · simp only [expandRow, if_neg h1, if_neg h2]
        exact ih visited queue found (fun m hm => h m (List.mem_cons_of_mem n hm))

/-- The `while queue and len(found_paths) < 5` loop of
`search_citation_path` (`app/citations.py` lines 216–239). Terminates
because each expansion step consumes one queue entry and only enqueues
paths whose new endpoint was freshly added to `visited`, a subset of the
finite `targetUniv`. -/
def bfsLoop (rows : List Citation) (target : String) (max_depth : Nat) :
    Finset String → List (List String) → List (List String) → List (List String)
  | _, [], found => found
  | visited, path :: rest, found =>
    if 5 ≤ found.length then found
    else if max_depth < path.length then
      bfsLoop rows target max_depth visited rest found
    else
      let r := expandRow target max_depth path
        (neighborsOf rows (path.getLastD "")) visited rest found
      bfsLoop rows target max_depth r.1 r.2.1 r.2.2
termination_by visited queue _ => 2 * ((targetUniv rows) \ visited).card + queue.length
decreasing_by
  · simp only [List.length_cons]
    omega
  · have hstep := expandRow_measure target max_depth path (targetUniv rows)
      (neighborsOf rows (path.getLastD "")) visited rest found
      (neighborsOf_subset_targetUniv rows (path.getLastD ""))
    simp only [List.length_cons]
    omega

/-- Models `search_citation_path(source_identifier, target_identifier, max_depth)`
from `app/citations.py`: BFS over full paths; returns `[]` when the store
does not exist. -/
def search_citation_path (db : Option (List Citation))
    (source_identifier target_identifier : String) (max_depth : Nat) :
    List (List String) :=
  match db with
  | none => []
  | some rows =>
    bfsLoop rows target_identifier max_depth {source_identifier}
      [[source_identifier]] []

/-! ### Invariants of the BFS -/

/-- What holds of every completed path: starts at the source, ends at the
target, no repeated identifier apart from the first and last element when
the target is the source itself, and at most `max_depth + 1` entries. -/
def GoodPath (src tgt : String) (max_depth : Nat) (p : List String) : Prop :=
  p.head? = some src ∧ p.getLast? = some tgt ∧ p.dropLast.Nodup ∧
    p.tail.Nodup ∧ (tgt ∈ p.dropLast → tgt = src) ∧ p.length ≤ max_depth + 1

/-- Invariant of the BFS frontier: every queued path is a nonempty
duplicate-free path starting at the source all of whose nodes are visited. -/
def QueueInv (src : String) (visited : Finset String)
    (queue : List (List String)) : Prop :=
  ∀ p ∈ queue, p ≠ [] ∧ p.head? = some src ∧ p.Nodup ∧ ∀ x ∈ p, x ∈ visited

/-- Invariant of the visited set: it contains the source, and contains the
target only if the target is the source (a neighbor equal to the target is
recorded as a completed path, never marked visited). -/
def VisInv (src tgt : String) (visited : Finset String) : Prop :=
  src ∈ visited ∧ (tgt ∈ visited → tgt = src)

lemma head?_append_left {α : Type} {l₁ : List α} (l₂ : List α) (h : l₁ ≠ []) :
    (l₁ ++ l₂).head? = l₁.head? := by
  cases l₁ with
  | nil => exact absurd rfl h
  | cons c cs => rfl

lemma goodPath_complete {src tgt : String} {max_depth : Nat}
    {path : List String} {visited : Finset String}
    (hne : path ≠ []) (hhead : path.head? = some src) (hnd : path.Nodup)
    (hsub : ∀ x ∈ path, x ∈ visited) (hvis : VisInv src tgt visited)
    (hlen : path.length ≤ max_depth) :
    GoodPath src tgt max_depth (path ++ [tgt]) := by
  obtain ⟨c, cs, rfl⟩ := List.exists_cons_of_ne_nil hne
  have hc : c = src := by simpa using hhead
  refine ⟨?_, List.getLast?_concat _, ?_, ?_, ?_, ?_⟩
  · rw [head?_append_left _ hne]
    exact hhead
  · rw [List.dropLast_concat]
    exact hnd
  · have htail : ((c :: cs) ++ [tgt]).tail = cs ++ [tgt] := rfl
    rw [htail, List.nodup_append]
    have hcs : cs.Nodup := (List.nodup_cons.mp hnd).2
    have hcni : c ∉ cs := (List.nodup_cons.mp hnd).1
    have htgtcs : tgt ∉ cs := by
      intro hmem
      have h1 : tgt ∈ visited := hsub tgt (List.mem_cons_of_mem c hmem)
      have h2 : tgt = src := hvis.2 h1
      rw [h2] at hmem
      rw [hc] at hcni
      exact hcni hmem
    refine ⟨hcs, List.nodup_singleton tgt, ?_⟩
    intro a ha hb
    rw [List.mem_singleton.mp hb] at ha
    exact htgtcs ha
  · rw [List.dropLast_concat]
    intro hmem
    exact hvis.2 (hsub tgt hmem)
  · rw [List.length_append, List.length_singleton]
    omega

/-- Invariant preservation through one inner `for` loop of the BFS
(`expandRow`), together with the bound: the completed-path list grows by at
most the number of occurrences of the target among the neighbors. -/
lemma expandRow_spec (src tgt : String) (max_depth : Nat) (path : List String)
    (hne : path ≠ []) (hhead : path.head? = some src) (hnd : path.Nodup)
    (hlen : path.length ≤ max_depth) :
    ∀ (ns : List String) (visited : Finset String) (queue found : List (List String)),
      (∀ x ∈ path, x ∈ visited) →
      QueueInv src visited queue → VisInv src tgt visited →
      (∀ p ∈ found, GoodPath src tgt max_depth p) →
      QueueInv src (expandRow tgt max_depth path ns visited queue found).1
          (expandRow tgt max_depth path ns visited queue found).2.1 ∧
        VisInv src tgt (expandRow tgt max_depth path ns visited queue found).1 ∧
        (∀ p ∈ (expandRow tgt max_depth path ns visited queue found).2.2,
          GoodPath src tgt max_depth p) ∧
        (expandRow tgt max_depth path ns visited queue found).2.2.length ≤
          found.length + ns.count tgt := by
  intro ns
  induction ns with
  | nil =>
    intro visited queue found _ hq hv hf
    simp only [expandRow]
    exact ⟨hq, hv, hf, by simp⟩
  | cons n ns ih =>
    intro visited queue found hsub hq hv hf
    by_cases h1 : n = tgt
    · subst h1
      simp only [expandRow, if_pos rfl]
      have hgood : GoodPath src n max_depth (path ++ [n]) :=
        goodPath_complete hne hhead hnd hsub hv hlen
      have hf' : ∀ p ∈ found ++ [path ++ [n]], GoodPath src n max_depth p := by
        intro p hp
        rcases List.mem_append.mp hp with hp1 | hp1
        · exact hf p hp1
        · rw [List.mem_singleton.mp hp1]
          exact hgood
      obtain ⟨a, b, c, d⟩ := ih visited queue (found ++ [path ++ [n]]) hsub hq hv hf'
      refine ⟨a, b, c, ?_⟩
      rw [List.count_cons_self]
      calc (expandRow n max_depth path ns visited queue
          (found ++ [path ++ [n]])).2.2.length
          ≤ (found ++ [path ++ [n]]).length + ns.count n := d
        _ = found.length + (ns.count n + 1) := by simp; omega
    · by_cases h2 : n ∉ visited ∧ path.length < max_depth
      · simp only [expandRow, if_neg h1, if_pos h2]
        have hsub' : ∀ x ∈ path, x ∈ insert n visited :=
          fun x hx => Finset.mem_insert_of_mem (hsub x hx)
        have hq' : QueueInv src (insert n visited) (queue ++ [path ++ [n]]) := by
          intro p hp
          rcases List.mem_append.mp hp with hp1 | hp1
          · obtain ⟨w1, w2, w3, w4⟩ := hq p hp1
            exact ⟨w1, w2, w3, fun x hx => Finset.mem_insert_of_mem (w4 x hx)⟩
          · rw [List.mem_singleton.mp hp1]
            refine ⟨by simp, ?_, ?_, ?_⟩
            · rw [head?_append_left _ hne]
              exact hhead
            · rw [List.nodup_append]
              refine ⟨hnd, List.nodup_singleton n, ?_⟩
              intro a ha hb
              rw [List.mem_singleton.mp hb] at ha
              exact h2.1 (hsub n ha)
            · intro x hx
              rcases List.mem_append.mp hx with hx1 | hx1
              · exact Finset.mem_insert_of_mem (hsub x hx1)
              · rw [List.mem_singleton.mp hx1]
                exact Finset.mem_insert_self n visited
        have hv' : VisInv src tgt (insert n visited) := by
          refine ⟨Finset.mem_insert_of_mem hv.1, ?_⟩
          intro ht
          rcases Finset.mem_insert.mp ht with ht1 | ht1
          · exact absurd ht1.symm h1
          · exact hv.2 ht1
        obtain ⟨a, b, c, d⟩ := ih (insert n visited) (queue ++ [path ++ [n]])
          found hsub' hq' hv' hf
        refine ⟨a, b, c, ?_⟩
        rw [List.count_cons_of_ne (fun hc => h1 hc.symm)]
        exact d
      · simp only [expandRow, if_neg h1, if_neg h2]
        obtain ⟨a, b, c, d⟩ := ih visited queue found hsub hq hv hf
        refine ⟨a, b, c, ?_⟩
        rw [List.count_cons_of_ne (fun hc => h1 hc.symm)]
        exact d

/-- Invariant preservation through the whole BFS loop: starting from an
invariant-respecting state with at most 5 completed paths, every path the
loop returns is a `GoodPath`, and at most 5 are returned (each loop
iteration adds at most one completed path because the neighbor list is
`SELECT DISTINCT`, so the `< 5` loop guard caps the total at 5). -/
lemma bfsLoop_spec (rows : List Citation) (src tgt : String) (max_depth : Nat) :
    ∀ (visited : Finset String) (queue found : List (List String)),
      QueueInv src visited queue → VisInv src tgt visited →
      (∀ p ∈ found, GoodPath src tgt max_depth p) → found.length ≤ 5 →
      (∀ p ∈ bfsLoop rows tgt max_depth visited queue found,
          GoodPath src tgt max_depth p) ∧
        (bfsLoop rows tgt max_depth visited queue found).length ≤ 5 := by
  intro visited queue found
  induction visited, queue, found using bfsLoop.induct rows tgt max_depth with
  | case1 x found =>
    intro _ _ hf hlen
    rw [bfsLoop.eq_def]
    exact ⟨hf, hlen⟩
  | case2 visited path rest found h5 =>
    intro _ _ hf hlen
    rw [bfsLoop.eq_def]
    simp only [if_pos h5]
    exact ⟨hf, hlen⟩
  | case3 visited path rest found h5 hdep ih =>
    intro hq hv hf hlen
    rw [bfsLoop.eq_def]
    simp only [if_neg h5, if_pos hdep]
    exact ih (fun p hp => hq p (List.mem_cons_of_mem path hp)) hv hf hlen
  | case4 visited path rest found h5 hdep r ih =>
    intro hq hv hf hlen
    obtain ⟨hne, hhead, hnd, hsub⟩ := hq path (List.mem_cons_self path rest)
    have hqrest : QueueInv src visited rest :=
      fun p hp => hq p (List.mem_cons_of_mem path hp)
    have hpl : path.length ≤ max_depth := Nat.le_of_not_lt hdep
    obtain ⟨a, b, c, d⟩ := expandRow_spec src tgt max_depth path hne hhead hnd
      hpl (neighborsOf rows (path.getLastD "")) visited rest found hsub
      hqrest hv hf
    have hcount : (neighborsOf rows (path.getLastD "")).count tgt ≤ 1 :=
      List.nodup_iff_count_le_one.mp (sqlDistinct_nodup _) tgt
    have hlen' : (expandRow tgt max_depth path
        (neighborsOf rows (path.getLastD "")) visited rest found).2.2.length ≤ 5 := by
      omega
    rw [bfsLoop.eq_def]
    simp only [if_neg h5, if_pos hdep, if_neg hdep]
    exact ih a b c hlen'

lemma initial_QueueInv (src : String) : QueueInv src {src} [[src]] := by
  intro p hp
  rw [List.mem_singleton.mp hp]
  refine ⟨by simp, rfl, List.nodup_singleton src, ?_⟩
  intro x hx
  rw [List.mem_singleton.mp hx]
  exact Finset.mem_singleton_self src

lemma initial_VisInv (src tgt : String) : VisInv src tgt ({src} : Finset String) :=
  ⟨Finset.mem_singleton_self src, fun h => Finset.mem_singleton.mp h⟩

lemma search_citation_path_good (db : Option (List Citation)) (s t : String)
    (d : Nat) : (∀ p ∈ search_citation_path db s t d, GoodPath s t d p) ∧
      (search_citation_path db s t d).length ≤ 5 := by
  match db with
  | none =>
    refine ⟨?_, ?_⟩
    · intro p hp
      exact absurd hp (List.not_mem_nil p)
    · show (List.length []) ≤ 5
      simp
  | some rows =>
    exact bfsLoop_spec rows s t d {s} [[s]] [] (initial_QueueInv s)
      (initial_VisInv s t) (fun p hp => absurd hp (List.not_mem_nil p))
      (by simp)

/-- C8: the BFS path search is a total function on every finite stored
graph (the Lean definition `bfsLoop` is well-founded — each expansion
either shortens the queue or pairs every enqueue with a freshly visited
node of the finite target universe), and it returns at most 5 paths: the
loop stops once `maxPaths = 5` completed paths are collected or the
frontier empties, and a single iteration can complete at most one path
because the neighbor list is duplicate-free. -/
theorem search_citation_path_returns_at_most_five
    (db : Option (List Citation)) (s t : String) (d : Nat) :
    (search_citation_path db s t d).length ≤ 5 :=
  (search_citation_path_good db s t d).2

/-- C1: with `max_depth ≥ 1`, every path returned by
`search_citation_path` has at most `max_depth + 1` identifiers (a frontier
path longer than `max_depth` is skipped rather than expanded, so a
completed path extends a path of length at most `max_depth` by one hop). -/
theorem search_citation_path_depth_bound (db : Option (List Citation))
    (s t : String) (d : Nat) (hd : 1 ≤ d) :
    ∀ p ∈ search_citation_path db s t d, p.length ≤ d + 1 := by
  intro p hp
  exact ((search_citation_path_good db s t d).1 p hp).2.2.2.2.2

/-- Witness for C1 on a two-edge store at depth 3. -/
theorem search_citation_path_depth_bound_witness :
    1 ≤ 3 ∧ ∀ p ∈ search_citation_path
      (some [⟨"t", "1", "/us/usc/t1/s1", "t", "2", "/us/usc/t1/s2", "x"⟩,
        ⟨"t", "2", "/us/usc/t1/s2", "t", "3", "/us/usc/t1/s3", "y"⟩])
      "/us/usc/t1/s1" "/us/usc/t1/s3" 3, p.length ≤ 3 + 1 :=
  ⟨by decide, search_citation_path_depth_bound _ _ _ 3 (by decide)⟩

/-- C10: every returned path begins with the source identifier, ends with
the target identifier, and repeats no identifier — except that its first
and last elements may coincide when source = target (`dropLast` and `tail`
are each duplicate-free, and the whole path is duplicate-free whenever
source ≠ target). -/
theorem search_citation_path_path_shape (db : Option (List Citation))
    (s t : String) (d : Nat) :
    ∀ p ∈ search_citation_path db s t d,
      p.head? = some s ∧ p.getLast? = some t ∧
        p.dropLast.Nodup ∧ p.tail.Nodup ∧ (s ≠ t → p.Nodup) := by
  intro p hp
  obtain ⟨h1, h2, h3, h4, h5, _⟩ := (search_citation_path_good db s t d).1 p hp
  refine ⟨h1, h2, h3, h4, ?_⟩
  intro hst
  have hne : p ≠ [] := by
    intro hnil
    rw [hnil] at h1
    exact Option.noConfusion h1
  have hgl : p.getLast hne = t := by
    have hq := List.getLast?_eq_getLast p hne
    rw [hq] at h2
    exact Option.some.inj h2
  have hrepr : p.dropLast ++ [p.getLast hne] = p :=
    List.dropLast_append_getLast hne
  rw [← hrepr, hgl, List.nodup_append]
  refine ⟨h3, List.nodup_singleton t, ?_⟩
  intro a ha hb
  rw [List.mem_singleton.mp hb] at ha
  exact hst (h5 ha).symm

lemma bfs_eval_single :
    search_citation_path (some [⟨"t", "1", "a", "t", "2", "b", "x"⟩])
      "a" "b" 1 = [["a", "b"]] := by
  show bfsLoop [⟨"t", "1", "a", "t", "2", "b", "x"⟩] "b" 1 {"a"} [["a"]] [] =
    [["a", "b"]]
  rw [bfsLoop.eq_def]
  norm_num
  rw [show expandRow "b" 1 ["a"]
      (neighborsOf [⟨"t", "1", "a", "t", "2", "b", "x"⟩] "a")
      {"a"} [] [] = ({"a"}, [], [["a", "b"]]) from rfl]
  rw [bfsLoop.eq_def]

/-- Witness for C10 on a one-edge store: the returned path `["a", "b"]`
starts at the source, ends at the target and has no duplicates. -/
theorem search_citation_path_path_shape_witness :
    ["a", "b"] ∈ search_citation_path
        (some [⟨"t", "1", "a", "t", "2", "b", "x"⟩]) "a" "b" 1 ∧
      (["a", "b"].head? = some "a" ∧ ["a", "b"].getLast? = some "b" ∧
        (["a", "b"].dropLast).Nodup ∧ (["a", "b"].tail).Nodup ∧
        ("a" ≠ "b" → (["a", "b"] : List String).Nodup)) := by
  have hm : ["a", "b"] ∈ search_citation_path
      (some [⟨"t", "1", "a", "t", "2", "b", "x"⟩]) "a" "b" 1 := by
    rw [bfs_eval_single]
    exact List.mem_singleton.mpr rfl
  exact ⟨hm, search_citation_path_path_shape _ _ _ _ _ hm⟩

/-! ## C7: directional consistency of the two lookups -/

lemma exists_edge_of_mem_cited_by {rows : List Citation} {X Y : String}
    {n : Nat}
    (h : ∃ r ∈ get_sections_cited_by (some rows) Y n, r.identifier = X) :
    ∃ c ∈ rows, c.source_identifier = Y ∧ c.target_identifier = X := by
  obtain ⟨r, hr, hid⟩ := h
  unfold get_sections_cited_by at hr
  obtain ⟨q, hq, rfl⟩ := List.mem_map.mp hr
  have hq2 : q ∈ sqlDistinct ((rows.filter
      (fun c => c.source_identifier = Y)).map
      (fun c => (c.target_identifier, c.target_title, c.target_section,
        c.citation_text))) := List.take_subset n _ hq
  obtain ⟨c, hc, hqc⟩ := List.mem_map.mp (mem_sqlDistinct hq2)
  refine ⟨c, List.mem_of_mem_filter hc, ?_, ?_⟩
  · have := List.mem_filter.mp hc
    simpa using this.2
  · rw [← hqc] at hid
    exact hid

/-- C7 (amended): if `X` appears in `citesFrom(Y, n)` then some edge
`Y → X` is stored, and `Y` appears in `citedBy(X, m)` whenever `m` is at
least the number of distinct rows targeting `X` — the `LIMIT` clause can
otherwise truncate `Y` out of the `citedBy` result. -/
theorem cites_cited_by_directional_consistency (rows : List Citation)
    (X Y : String) (n m : Nat)
    (hmem : ∃ r ∈ get_sections_cited_by (some rows) Y n, r.identifier = X)
    (hcap : (sqlDistinct ((rows.filter
      (fun c => c.target_identifier = X)).map
      (fun c => (c.source_identifier, c.source_title, c.source_section,
        c.citation_text)))).length ≤ m) :
    ∃ r ∈ get_sections_that_cite (some rows) X m, r.identifier = Y := by
  obtain ⟨c, hc, hsrc, htgt⟩ := exists_edge_of_mem_cited_by hmem
  unfold get_sections_that_cite
  have hfil : c ∈ rows.filter (fun c => c.target_identifier = X) :=
    List.mem_filter.mpr ⟨hc, by simp [htgt]⟩
  have hmp : (c.source_identifier, c.source_title, c.source_section,
      c.citation_text) ∈ (rows.filter (fun c => c.target_identifier = X)).map
      (fun c => (c.source_identifier, c.source_title, c.source_section,
        c.citation_text)) := List.mem_map.mpr ⟨c, hfil, rfl⟩
  have hdis := mem_sqlDistinct_of_mem hmp
  have htake : (sqlDistinct ((rows.filter
      (fun c => c.target_identifier = X)).map
      (fun c => (c.source_identifier, c.source_title, c.source_section,
        c.citation_text)))).take m = sqlDistinct ((rows.filter
      (fun c => c.target_identifier = X)).map
      (fun c => (c.source_identifier, c.source_title, c.source_section,
        c.citation_text))) := List.take_of_length_le hcap
  refine ⟨⟨c.source_identifier, c.source_title, c.source_section, "cited_by",
    c.citation_text⟩, ?_, by simpa using hsrc⟩
  refine List.mem_map.mpr ⟨(c.source_identifier, c.source_title,
    c.source_section, c.citation_text), ?_, rfl⟩
  rw [htake]
  exact hdis

/-- Witness for C7 (amended) on a one-edge store `Y → X` at the default
limit 20. -/
theorem cites_cited_by_directional_consistency_witness :
    (∃ r ∈ get_sections_cited_by
        (some [⟨"t", "1", "Y", "t", "2", "X", "c"⟩]) "Y" 20,
      r.identifier = "X") ∧
    (sqlDistinct ((([⟨"t", "1", "Y", "t", "2", "X", "c"⟩] :
        List Citation).filter (fun c => c.target_identifier = "X")).map
      (fun c => (c.source_identifier, c.source_title, c.source_section,
        c.citation_text)))).length ≤ 20 ∧
    ∃ r ∈ get_sections_that_cite
        (some [⟨"t", "1", "Y", "t", "2", "X", "c"⟩]) "X" 20,
      r.identifier = "Y" :=
  ⟨by decide, by decide,
    cites_cited_by_directional_consistency _ "X" "Y" 20 20 (by decide) (by decide)⟩

/-- Store refuting C7 as stated: 21 sections `a`, `aa`, …, `a^21` cite `X`,
and so does `Y`, whose row is last; `Y` itself cites only `X`. -/
def c7rows : List Citation :=
  ((List.range 21).map (fun i =>
    ⟨"t", "1", String.mk (List.replicate (i + 1) 'a'), "t", "9", "X", "c"⟩)) ++
    [⟨"t", "1", "Y", "t", "9", "X", "c"⟩]

/-- C7 counterexample: at the functions' default limit 20, `X` appears in
`citesFrom(Y)` but `Y` does not appear in `citedBy(X)` — the 22 distinct
citing rows of `X` are truncated to the first 20 by `LIMIT`, and `Y`'s row
is the 22nd. -/
theorem cites_cited_by_directional_consistency_counterexample :
    ((get_sections_cited_by (some c7rows) "Y" 20).map
      (fun r => r.identifier)).contains "X" = true ∧
    ((get_sections_that_cite (some c7rows) "X" 20).map
      (fun r => r.identifier)).contains "Y" = false := by
  decide

/-! ## HTTP layer (`app/routers/citations.py`)

FastAPI evaluates the `Query(..., ge=…, le=…)` constraints before the
handler body runs; a violating value is rejected with a 422 validation
error (the handler, and hence the store, is never reached). The handlers
themselves raise 503 when `citation_db_exists()` is false. Endpoint results
are modelled as `Except HTTPError`. -/

structure HTTPError where
  status : Nat
  detail : String
deriving DecidableEq, Repr

/-- Endpoint `GET /citations/stats`. -/
def get_stats_endpoint (db : Option (List Citation)) :
    Except HTTPError StatsResult :=
  if db.isNone then
    .error ⟨503, "Citation database not found. Run build_citation_graph.py first."⟩
  else .ok (get_citation_stats db)

/-- Endpoint `GET /citations/related/(title)/(section)` with
`limit: int = Query(default=10, ge=1, le=50)`. -/
def get_related_endpoint (db : Option (List Citation)) (title sect : String)
    (limit : Int) : Except HTTPError RelatedResult :=
  if ¬(1 ≤ limit ∧ limit ≤ 50) then .error ⟨422, "validation error"⟩
  else if db.isNone then
    .error ⟨503, "Citation database not found. Run build_citation_graph.py first."⟩
  else .ok (get_related_sections db
    ("/us/usc/t" ++ title ++ "/s" ++ sect) limit.toNat)

/-- The response body of `GET /citations/path`. -/
structure PathResponse where
  paths_found : Nat
  paths : List (List String)
deriving DecidableEq, Repr

/-- Endpoint `GET /citations/path` with
`max_depth: int = Query(default=3, ge=1, le=5)`. -/
def find_citation_path_endpoint (db : Option (List Citation))
    (source_title source_section target_title target_section : String)
    (max_depth : Int) : Except HTTPError PathResponse :=
  if ¬(1 ≤ max_depth ∧ max_depth ≤ 5) then .error ⟨422, "validation error"⟩
  else if db.isNone then
    .error ⟨503, "Citation database not found. Run build_citation_graph.py first."⟩
  else
    let source := "/us/usc/t" ++ source_title ++ "/s" ++ source_section
    let target := "/us/usc/t" ++ target_title ++ "/s" ++ target_section
    let paths := search_citation_path db source target max_depth.toNat
    .ok ⟨paths.length, paths⟩

/-- Is a `StatsResult` the error dict? -/
def StatsResult.isErr : StatsResult → Bool
  | .error _ => true
  | .stats _ _ _ _ _ => false

/-! ## C4: behavior when the store does not exist -/

lemma bfs_eval_empty_store :
    search_citation_path (some []) "a" "b" 3 = [] := by
  show bfsLoop [] "b" 3 {"a"} [["a"]] [] = []
  rw [bfsLoop.eq_def]
  norm_num
  rw [show expandRow "b" 3 ["a"] (neighborsOf [] "a") {"a"} [] [] =
    ({"a"}, [], []) from rfl]
  rw [bfsLoop.eq_def]

/-- C4 counterexample: at the query-engine level (`app/citations.py`),
`search_citation_path` on a missing store returns `[]` — exactly the value
a legitimately empty existing store produces, so the two cases are
indistinguishable to its caller, contrary to the claim. -/
theorem store_unavailable_findPaths_counterexample :
    search_citation_path none "a" "b" 3 =
        search_citation_path (some []) "a" "b" 3 ∧
      search_citation_path none "a" "b" 3 = ([] : List (List String)) := by
  refine ⟨?_, rfl⟩
  rw [bfs_eval_empty_store]
  rfl

/-- C4 (amended): when the store does not exist, `get_citation_stats`
returns the distinguished error dict (never produced for an existing
store), `get_related_sections` degrades to all-empty lists, but
`search_citation_path` returns a plain `[]` indistinguishable from
no-path-found; the distinct store-unavailable failure for both `stats` and
`findPaths` is produced by the HTTP endpoints, which reject with 503
before touching the store. -/
theorem store_unavailable_surface (i s1 s2 t1 t2 t3 t4 : String)
    (d lim : Nat) (rows : List Citation) :
    get_citation_stats none = .error "Citation database not found" ∧
      (get_citation_stats (some rows)).isErr = false ∧
      get_related_sections none i lim = ⟨[], [], 0, 0⟩ ∧
      search_citation_path none s1 s2 d = [] ∧
      get_stats_endpoint none = .error ⟨503,
        "Citation database not found. Run build_citation_graph.py first."⟩ ∧
      find_citation_path_endpoint none t1 t2 t3 t4 3 = .error ⟨503,
        "Citation database not found. Run build_citation_graph.py first."⟩ := by
  refine ⟨rfl, rfl, rfl, rfl, rfl, ?_⟩
  unfold find_citation_path_endpoint
  rw [if_neg (by decide)]
  rfl

/-! ## C9: query-parameter bounds -/

/-- C9 (amended): an out-of-range `max_depth` (outside `[1, 5]`) or
`limit` (outside `[1, 50]`) is rejected by FastAPI request validation with
a 422 error — the same error for every store, so the value never reaches
the store; values are rejected, not clamped to the ceilings. -/
theorem query_params_validated (db : Option (List Citation))
    (a b c e : String) (dep lim : Int) (hdep : dep < 1 ∨ 5 < dep)
    (hlim : lim < 1 ∨ 50 < lim) :
    find_citation_path_endpoint db a b c e dep =
        .error ⟨422, "validation error"⟩ ∧
      get_related_endpoint db a b lim = .error ⟨422, "validation error"⟩ := by
  constructor
  · unfold find_citation_path_endpoint
    rw [if_pos (by omega)]
  · unfold get_related_endpoint
    rw [if_pos (by omega)]

/-- Witness for C9 (amended) at `max_depth = 6` and `limit = 51`. -/
theorem query_params_validated_witness :
    ((6 : Int) < 1 ∨ 5 < (6 : Int)) ∧ ((51 : Int) < 1 ∨ 50 < (51 : Int)) ∧
      (find_citation_path_endpoint none "1" "1" "1" "2" 6 =
          .error ⟨422, "validation error"⟩ ∧
        get_related_endpoint none "1" "1" 51 =
          .error ⟨422, "validation error"⟩) :=
  ⟨by decide, by decide,
    query_params_validated none "1" "1" "1" "2" 6 51 (by decide) (by decide)⟩

lemma bfs_eval_depth5 :
    search_citation_path
      (some [⟨"1", "1", "/us/usc/t1/s1", "1", "2", "/us/usc/t1/s2", "x"⟩])
      "/us/usc/t1/s1" "/us/usc/t1/s2" 5 =
      [["/us/usc/t1/s1", "/us/usc/t1/s2"]] := by
  show bfsLoop [⟨"1", "1", "/us/usc/t1/s1", "1", "2", "/us/usc/t1/s2", "x"⟩]
    "/us/usc/t1/s2" 5 {"/us/usc/t1/s1"} [["/us/usc/t1/s1"]] [] =
    [["/us/usc/t1/s1", "/us/usc/t1/s2"]]
  rw [bfsLoop.eq_def]
  norm_num
  rw [show expandRow "/us/usc/t1/s2" 5 ["/us/usc/t1/s1"]
      (neighborsOf [⟨"1", "1", "/us/usc/t1/s1", "1", "2", "/us/usc/t1/s2", "x"⟩]
        "/us/usc/t1/s1")
      {"/us/usc/t1/s1"} [] [] =
    ({"/us/usc/t1/s1"}, [], [["/us/usc/t1/s1", "/us/usc/t1/s2"]]) from rfl]
  rw [bfsLoop.eq_def]

/-- C9 counterexample: parameters are not clamped. On a one-edge store,
`max_depth = 6` yields the 422 validation error while `max_depth = 5`
(the supposed ceiling) succeeds with one path — were out-of-range values
clamped to the ceiling, the two calls would return the same result. -/
theorem query_params_not_clamped_counterexample :
    find_citation_path_endpoint
        (some [⟨"1", "1", "/us/usc/t1/s1", "1", "2", "/us/usc/t1/s2", "x"⟩])
        "1" "1" "1" "2" 6 = .error ⟨422, "validation error"⟩ ∧
      find_citation_path_endpoint
        (some [⟨"1", "1", "/us/usc/t1/s1", "1", "2", "/us/usc/t1/s2", "x"⟩])
        "1" "1" "1" "2" 5 =
        .ok ⟨1, [["/us/usc/t1/s1", "/us/usc/t1/s2"]]⟩ := by
  constructor
  · unfold find_citation_path_endpoint
    rw [if_pos (by decide)]
  · unfold find_citation_path_endpoint
    rw [if_neg (by decide)]
    norm_num
    rw [show ((5 : Int)).toNat = 5 from rfl]
    rw [show ("/us/usc/t" ++ "1" ++ "/s" ++ "1" : String) = "/us/usc/t1/s1" from rfl]
    rw [show ("/us/usc/t" ++ "1" ++ "/s" ++ "2" : String) = "/us/usc/t1/s2" from rfl]
    rw [bfs_eval_depth5]
    exact ⟨rfl, rfl⟩
